import Mathlib

/-!
Verification of the mesh-node registry of the ESP8266_Mesh repository.

The development shallowly embeds the registry module (mesh_device.c), the
topology-test response handler and its eviction pass (mesh_none.c), and the
protocol dispatch facade (mesh_parser.c, packet parsing function at lines
404-446 of the concatenated source).  C pointers that may be NULL are
modelled as Option values; the module-level `node_list` pointer becomes an
explicit `Option mesh_device_list_type` threaded through every operation.
uint16/uint32 values are Nat; the only place where 32-bit wraparound is
observable (the timestamp subtraction in the eviction pass) uses an explicit
mod 2^32.
-/

/-- A 6-byte link-layer MAC address (struct mesh_device_mac_type);
equality is byte-wise (os_memcmp over sizeof(struct mesh_device_mac_type)). -/
structure mesh_device_mac_type where
  mac : List Nat
deriving DecidableEq

/-- One registry entry (struct mesh_device_node_type): MAC address plus
last-seen timestamp (system_get_time microseconds, uint32). -/
structure mesh_device_node_type where
  mac_addr : mesh_device_mac_type
  timestamp : Nat
deriving DecidableEq

/-- The registry storage (struct mesh_device_list_type).  `entries_count`
counts the root plus the registered members; the members are
list[0 .. entries_count-2].  The C member array may keep unreferenced slack
past index entries_count-2 (e.g. the over-allocation when an input to add
repeats a fresh address), but every read and write in the source is bounded
by entries_count-1, so the model keeps exactly the referenced prefix and
reads through `List.take (entries_count - 1)` wherever the source loops up to
entries_count-1. -/
structure mesh_device_list_type where
  entries_count : Nat
  root : mesh_device_node_type
  list : List mesh_device_node_type
deriving DecidableEq

/-- All-zero MAC, the content os_zalloc / os_memset 0 gives the root slot. -/
def zeroMac : mesh_device_mac_type := ⟨[0, 0, 0, 0, 0, 0]⟩

/-- Zero-filled registry entry. -/
def zeroNode : mesh_device_node_type := ⟨zeroMac, 0⟩

/-- A freshly zeroed mesh_device_list_type (os_zalloc in
mesh_device_list_init, os_memset in mesh_device_list_release). -/
def zeroList : mesh_device_list_type := ⟨0, zeroNode, []⟩

/-- mesh_device_list_init: allocate the zeroed storage if the module pointer
is still NULL. -/
def mesh_device_list_init (nl : Option mesh_device_list_type) :
    Option mesh_device_list_type :=
  match nl with
  | none => some zeroList
  | some l => some l

/-- mesh_device_list_release: free the member array and zero the whole
structure (the pointer itself stays allocated). -/
def mesh_device_list_release (nl : Option mesh_device_list_type) :
    Option mesh_device_list_type :=
  match nl with
  | none => none
  | some _ => some zeroList

/-- mesh_device_list_search: false on a NULL argument, a NULL node_list or an
empty list; otherwise the root entry is compared first and then every member
in the scanned prefix list[0 .. entries_count-2]. -/
def mesh_device_list_search (node : Option mesh_device_mac_type)
    (nl : Option mesh_device_list_type) : Bool :=
  match node, nl with
  | none, _ => false
  | some _, none => false
  | some a, some l =>
    if l.entries_count = 0 then false
    else if l.root.mac_addr = a then true
    else (l.list.take (l.entries_count - 1)).any fun e => decide (e.mac_addr = a)

/-- mesh_device_list_get: the out-parameters (member view and count) are
modelled as the second component; `none` there means the function returned
false without writing them (NULL node_list).  An empty registry
(entries_count <= 1 or a NULL member array) yields the (NULL, 0) view,
modelled as ([], 0). -/
def mesh_device_list_get (nl : Option mesh_device_list_type) :
    Bool × Option (List mesh_device_node_type × Nat) :=
  match nl with
  | none => (false, none)
  | some l =>
    if l.entries_count ≤ 1 ∨ l.list = [] then (true, some ([], 0))
    else (true, some (l.list.take (l.entries_count - 1), l.entries_count - 1))

/-- mesh_device_root_set: fails only on a NULL argument.  Initializes the
storage on demand; with no root yet (entries_count = 0) or with a different
current root, the whole structure is released (zeroed) and the given MAC is
copied into the root slot with entries_count = 1 (the zeroed timestamp
stays 0); with an equal current root nothing changes.  The trailing memcmp
self-check succeeds on every one of these paths, so the function returns
true. -/
def mesh_device_root_set (root : Option mesh_device_mac_type)
    (nl : Option mesh_device_list_type) :
    Bool × Option mesh_device_list_type :=
  match root with
  | none => (false, nl)
  | some a =>
    match mesh_device_list_init nl with
    | none => (false, nl)
    | some l =>
      if l.entries_count = 0 then (true, some ⟨1, ⟨a, 0⟩, []⟩)
      else if l.root.mac_addr = a then (true, some l)
      else (true, some ⟨1, ⟨a, 0⟩, []⟩)

/-- mesh_device_root_get: the root entry, or a false return (out-parameter
unwritten) on a NULL pointer, NULL node_list, or entries_count <= 0. -/
def mesh_device_root_get (nl : Option mesh_device_list_type) :
    Bool × Option mesh_device_node_type :=
  match nl with
  | none => (false, none)
  | some l => if l.entries_count = 0 then (false, none) else (true, some l.root)

/-- The member scan inside mesh_device_update_timestamp: the first entry of
the scanned prefix whose MAC matches gets the fresh timestamp, then the scan
breaks. -/
def updateFirstMatch (a : mesh_device_mac_type) (now : Nat) :
    List mesh_device_node_type → List mesh_device_node_type
  | [] => []
  | e :: rest =>
    if e.mac_addr = a then { e with timestamp := now } :: rest
    else e :: updateFirstMatch a now rest

/-- One iteration of the while loop of mesh_device_update_timestamp: a node
found by mesh_device_list_search has its timestamp refreshed, in the root
slot if the root matches and in the first matching member of the scanned
prefix; nodes not found are skipped. -/
def touch_one (now : Nat) (l : mesh_device_list_type)
    (a : mesh_device_mac_type) : mesh_device_list_type :=
  if mesh_device_list_search (some a) (some l) then
    { l with
      root := if l.root.mac_addr = a then { l.root with timestamp := now }
              else l.root
      list := updateFirstMatch a now (l.list.take (l.entries_count - 1)) }
  else l

/-- mesh_device_update_timestamp: false on a NULL nodes pointer, a NULL
node_list or an empty list, with no state change; otherwise every input node
is processed in order and the function returns true. -/
def mesh_device_update_timestamp (nodes : Option (List mesh_device_mac_type))
    (now : Nat) (nl : Option mesh_device_list_type) :
    Bool × Option mesh_device_list_type :=
  match nodes, nl with
  | none, _ => (false, nl)
  | some _, none => (false, nl)
  | some addrs, some l =>
    if l.entries_count = 0 then (false, nl)
    else (true, some (addrs.foldl (touch_one now) l))

/-- One iteration of the append loop in mesh_device_add: a node already
present (root or member) is skipped, otherwise its MAC is copied into index
entries_count-1 and entries_count is incremented.  The appended slot comes
from os_zalloc and only the MAC is copied, so the new entry carries timestamp
0 (mesh_device_add never reads the clock). -/
def add_one (l : mesh_device_list_type) (a : mesh_device_mac_type) :
    mesh_device_list_type :=
  if mesh_device_list_search (some a) (some l) then l
  else ⟨l.entries_count + 1, l.root, l.list.take (l.entries_count - 1) ++ [⟨a, 0⟩]⟩

/-- mesh_device_add: false on a NULL nodes pointer, a NULL node_list, or
entries_count < 1 (no root yet), with no state change.  With count = 0
nothing happens and the function returns true.  Otherwise the first pass
only sizes the reallocation (it counts input nodes that search misses) and
the second pass appends each input node that is still absent at its turn, so
duplicates within the input collapse to one; the return value is the Boolean
true, not a count. -/
def mesh_device_add (nodes : Option (List mesh_device_mac_type))
    (nl : Option mesh_device_list_type) :
    Bool × Option mesh_device_list_type :=
  match nodes, nl with
  | none, _ => (false, nl)
  | some _, none => (false, nl)
  | some addrs, some l =>
    if l.entries_count < 1 then (false, nl)
    else if addrs = [] then (true, some l)
    else (true, some (addrs.foldl add_one l))

/-- Remove the first entry of the list whose MAC matches (the shift-left
memcpy in mesh_device_del followed by entries_count--). -/
def removeFirst (a : mesh_device_mac_type) :
    List mesh_device_node_type → List mesh_device_node_type
  | [] => []
  | e :: rest => if e.mac_addr = a then rest else e :: removeFirst a rest

/-- The body of one successful (search-hit) iteration of the while loop in
mesh_device_del.  The root comparison guarding the registry reset is dead
code in the source: its length argument is the expression
sizeof(struct mesh_device_mac_type) == 0, which evaluates to 0, so os_memcmp
returns 0 and the branch is never taken; only the member scan runs.  The
first matching member of the scanned prefix is removed and entries_count is
decremented; a hit on the root therefore changes nothing. -/
def delMemberFirst (a : mesh_device_mac_type) (l : mesh_device_list_type) :
    mesh_device_list_type :=
  if (l.list.take (l.entries_count - 1)).any (fun e => decide (e.mac_addr = a)) then
    ⟨l.entries_count - 1, l.root, removeFirst a (l.list.take (l.entries_count - 1))⟩
  else l

/-- The while loop of mesh_device_del with one fuel unit per loop iteration.
The loop index redundant_nodes_idx is incremented only inside the
search-success branch, so an iteration whose search misses repeats with
unchanged state; `none` means the fuel ran out before the loop exited. -/
def del_loop_fuel (fuel : Nat) (addrs : List mesh_device_mac_type)
    (l : mesh_device_list_type) : Option mesh_device_list_type :=
  match fuel, addrs with
  | _, [] => some l
  | 0, _ => none
  | fuel + 1, a :: rest =>
    if mesh_device_list_search (some a) (some l) then
      del_loop_fuel fuel rest (delMemberFirst a l)
    else
      del_loop_fuel fuel (a :: rest) l

/-- The while loop of mesh_device_del with the search-miss case mapped to
divergence: on a miss the body changes nothing and the index is not advanced,
so the same iteration repeats forever (del_loop_fuel returns none for every
fuel; see del_loop_none_fuel). -/
def del_loop : List mesh_device_mac_type → mesh_device_list_type →
    Option mesh_device_list_type
  | [], l => some l
  | a :: rest, l =>
    if mesh_device_list_search (some a) (some l) then
      del_loop rest (delMemberFirst a l)
    else none

/-- mesh_device_del: true with no effect on a NULL nodes pointer, count <= 0,
or an empty list; false with no effect on a NULL node_list.  Otherwise the
while loop runs (the outer `none` models its possible divergence).  The
trailing reallocation only shrinks the member array to entries_count-1
entries and copies the surviving prefix, which is a no-op on the modelled
prefix. -/
def mesh_device_del (nodes : Option (List mesh_device_mac_type))
    (nl : Option mesh_device_list_type) :
    Option (Bool × Option mesh_device_list_type) :=
  match nodes with
  | none => some (true, nl)
  | some addrs =>
    if addrs = [] then some (true, nl)
    else
      match nl with
      | none => some (false, nl)
      | some l =>
        if l.entries_count = 0 then some (true, nl)
        else (del_loop addrs l).map fun l' => (true, some l')

/-- uint32 subtraction, system_get_time() - timestamp. -/
def sub32 (a b : Nat) : Nat := (a + 2 ^ 32 - b % 2 ^ 32) % 2 ^ 32

/-- user_config.h: time in milliseconds after which a non-responsive member
is deleted. -/
def SUB_NODE_TIMEOUT_THRESHOLD : Nat := 30000

/-- The staleness test of the eviction pass in mesh_none.c:
(system_get_time() - timestamp) / 1000 > threshold.  The timestamps are in
microseconds and the threshold in milliseconds, hence the division. -/
def staleB (threshold now ts : Nat) : Bool := decide (threshold < sub32 now ts / 1000)

/-- The eviction while loop of mesh_none.c: dev_idx walks the snapshot of the
member view downward from count-1 to 0; each snapshot entry whose timestamp
fails the staleness test is passed to mesh_device_del as a single-element
list.  The deletions mutate the live list while the walk keeps reading the
snapshot taken before the loop (the source reads the stale array through the
saved pointer after the reallocation freed it; downward iteration only ever
revisits indices below every index already shifted, so the values read equal
the snapshot values).  `none` propagates a divergence of mesh_device_del. -/
def evict_loop (threshold now : Nat) (snap : List mesh_device_node_type) :
    Nat → mesh_device_list_type → Option mesh_device_list_type
  | 0, l => some l
  | i + 1, l =>
    if staleB threshold now (snap.getD i zeroNode).timestamp then
      match mesh_device_del (some [(snap.getD i zeroNode).mac_addr]) (some l) with
      | some (_, some l') => evict_loop threshold now snap i l'
      | _ => none
    else evict_loop threshold now snap i l

/-- The eviction pass of mesh_none.c (identical at both call sites): take the
member view through mesh_device_list_get, and if the view pointer is non-NULL
walk it downward deleting every stale member.  With a NULL node_list the get
leaves the static locals unwritten and the loop is skipped; that path is
unreachable at both call sites (a successful mesh_device_root_set or
mesh_device_list_init precedes it). -/
def evict_stale (threshold now : Nat) (nl : Option mesh_device_list_type) :
    Option (Option mesh_device_list_type) :=
  match nl with
  | none => some none
  | some l =>
    match (mesh_device_list_get (some l)).2 with
    | none => some (some l)
    | some (snap, cnt) =>
      if snap = [] then some (some l)
      else (evict_loop threshold now snap cnt l).map some

/-- A parsed topology response (mesh_none.c): the source address of the mesh
header and the occurrences of the M_O_TOPO_RESP option in order, each
carrying a packed sequence of olen / sizeof(struct mesh_device_mac_type) MAC
addresses. -/
structure TopoRespMsg where
  src_addr : mesh_device_mac_type
  topo_options : List (List mesh_device_mac_type)

/-- The topology-response handler mesh_parser_protocol_none.  hdrOk/dataOk
model the NULL checks of the two pointer arguments and len the length check.
A message without any M_O_TOPO_RESP occurrence is ignored.  Otherwise the
source address becomes the root (its timestamp refreshed only when
mesh_device_root_set reported true — on a false report the handler merely
logs and falls through to the option loop), every option occurrence is folded
in through mesh_device_add followed by mesh_device_update_timestamp (the
touch is skipped when the add reported false), and finally the eviction pass
runs.  The trailing display call is a pure read. -/
def mesh_parser_protocol_none (hdrOk dataOk : Bool) (len : Nat)
    (msg : TopoRespMsg) (now : Nat) (nl : Option mesh_device_list_type) :
    Option (Option mesh_device_list_type) :=
  if hdrOk = false ∨ dataOk = false ∨ len = 0 then some nl
  else if msg.topo_options = [] then some nl
  else
    evict_stale SUB_NODE_TIMEOUT_THRESHOLD now
      (msg.topo_options.foldl
        (fun acc opt =>
          if (mesh_device_add (some opt) acc).1 = true then
            (mesh_device_update_timestamp (some opt) now
              (mesh_device_add (some opt) acc).2).2
          else (mesh_device_add (some opt) acc).2)
        (if (mesh_device_root_set (some msg.src_addr) nl).1 = true then
          (mesh_device_update_timestamp (some [msg.src_addr]) now
            (mesh_device_root_set (some msg.src_addr) nl).2).2
        else (mesh_device_root_set (some msg.src_addr) nl).2))

/-- Modelled from the spec: the same response handling, but aborting after a
failed set_root with no further registry mutation (the topology-member
options are not folded in and no eviction runs).  Compared against the
source handler in the theorem for claim C7. -/
def mesh_parser_protocol_none_specAbort (hdrOk dataOk : Bool) (len : Nat)
    (msg : TopoRespMsg) (now : Nat) (nl : Option mesh_device_list_type) :
    Option (Option mesh_device_list_type) :=
  if hdrOk = false ∨ dataOk = false ∨ len = 0 then some nl
  else if msg.topo_options = [] then some nl
  else
    if (mesh_device_root_set (some msg.src_addr) nl).1 = true then
      evict_stale SUB_NODE_TIMEOUT_THRESHOLD now
        (msg.topo_options.foldl
          (fun acc opt =>
            if (mesh_device_add (some opt) acc).1 = true then
              (mesh_device_update_timestamp (some opt) now
                (mesh_device_add (some opt) acc).2).2
            else (mesh_device_add (some opt) acc).2)
          ((mesh_device_update_timestamp (some [msg.src_addr]) now
            (mesh_device_root_set (some msg.src_addr) nl).2).2))
    else some (mesh_device_root_set (some msg.src_addr) nl).2

/-- enum mesh_usr_proto_type: the protocol tag of pure topology-test
messages. -/
def M_PROTO_NONE : Nat := 0

/-- The linear scan with break over supported_protocols: the handler slot of
the first table entry whose protocol tag matches, or none when the protocol
is absent from the table. -/
def dispatch_lookup {H : Type} : List (Nat × Option H) → Nat → Option (Option H)
  | [], _ => none
  | (p, h) :: rest, proto => if p = proto then some h else dispatch_lookup rest proto

/-- The dispatch facade of mesh_parser.c.  hdrOk/dataOk/len model the NULL
and length validation of (arg, data, len); resolvedProto models
espconn_mesh_get_usr_data_proto (none = resolution failed, reported and
dropped); handlers are registry transformers.  A protocol found with a NULL
handler, or not found at all, is reported and dropped with the registry
untouched.  The user-data extraction fallback (the whole raw message serves
as payload when the header carries no user-data section) selects what a
handler receives and never touches the registry, so it is elided here. -/
def mesh_packet_dispatch
    (table : List (Nat × Option (Option mesh_device_list_type →
      Option (Option mesh_device_list_type))))
    (hdrOk dataOk : Bool) (len : Nat) (resolvedProto : Option Nat)
    (nl : Option mesh_device_list_type) : Option (Option mesh_device_list_type) :=
  if hdrOk = false ∨ dataOk = false ∨ len = 0 then some nl
  else
    match resolvedProto with
    | none => some nl
    | some proto =>
      match dispatch_lookup table proto with
      | none => some nl
      | some none => some nl
      | some (some h) => h nl

/-- The statically populated protocol table of mesh_parser.c: a single
binding of M_PROTO_NONE to the topology-response handler (closed over the
parsed message, the clock and the payload length the dispatcher passes). -/
def supported_protocols (msg : TopoRespMsg) (now len : Nat) :
    List (Nat × Option (Option mesh_device_list_type →
      Option (Option mesh_device_list_type))) :=
  [(M_PROTO_NONE, some (mesh_parser_protocol_none true true len msg now))]

/-- A call against the registry, for stating properties of call sequences. -/
inductive RegOp where
  | add (addrs : List mesh_device_mac_type)
  | set_root (a : mesh_device_mac_type)

/-- Apply one registry call, keeping the state it leaves behind. -/
def applyOp (nl : Option mesh_device_list_type) : RegOp →
    Option mesh_device_list_type
  | RegOp.add addrs => (mesh_device_add (some addrs) nl).2
  | RegOp.set_root a => (mesh_device_root_set (some a) nl).2

/-- Apply a sequence of registry calls in order. -/
def applyOps (ops : List RegOp) (nl : Option mesh_device_list_type) :
    Option mesh_device_list_type :=
  ops.foldl applyOp nl

/-- The member view: the scanned prefix list[0 .. entries_count-2]. -/
def memberPrefix (l : mesh_device_list_type) : List mesh_device_node_type :=
  l.list.take (l.entries_count - 1)

/-- The member MAC addresses of a registry state. -/
def memberMacs (nl : Option mesh_device_list_type) : List mesh_device_mac_type :=
  match nl with
  | none => []
  | some l => (memberPrefix l).map fun e => e.mac_addr

/-- The root MAC address of a registry state, when a root is set
(entries_count >= 1). -/
def rootMac (nl : Option mesh_device_list_type) : Option mesh_device_mac_type :=
  match nl with
  | none => none
  | some l => if l.entries_count = 0 then none else some l.root.mac_addr

/-- The representation invariant of reachable registry states: the modelled
member array holds exactly the entries_count-1 scanned entries, member MACs
are pairwise distinct, and the root MAC is not among them once a root is
set. -/
def RegInv : Option mesh_device_list_type → Prop
  | none => True
  | some l =>
    l.list.length = l.entries_count - 1 ∧
    (l.list.map fun e => e.mac_addr).Nodup ∧
    (1 ≤ l.entries_count → l.root.mac_addr ∉ l.list.map fun e => e.mac_addr)

/-- The input addresses a call to mesh_device_add actually appends, in input
order: addresses already present (root or member) are dropped, and a repeated
fresh address is dropped at its second occurrence because the first
occurrence has been appended by then. -/
def freshList (l : mesh_device_list_type) :
    List mesh_device_mac_type → List mesh_device_mac_type
  | [] => []
  | a :: rest =>
    if mesh_device_list_search (some a) (some l) then freshList l rest
    else a :: freshList (add_one l a) rest

/-- Concrete MAC addresses for the closed instances below. -/
def macR : mesh_device_mac_type := ⟨[1, 2, 3, 4, 5, 6]⟩

def macA : mesh_device_mac_type := ⟨[17, 18, 19, 20, 21, 22]⟩

def macB : mesh_device_mac_type := ⟨[33, 34, 35, 36, 37, 38]⟩

def macX : mesh_device_mac_type := ⟨[9, 9, 9, 9, 9, 9]⟩

/-! ## Basic lemmas -/

/-- mesh_device_root_set succeeds on every non-NULL argument: each branch of
the source ends in the memcmp self-check comparing the just-copied (or equal)
root slot against the argument. -/
theorem mesh_device_root_set_fst (a : mesh_device_mac_type)
    (nl : Option mesh_device_list_type) :
    (mesh_device_root_set (some a) nl).1 = true := by
  cases nl with
  | none =>
    simp only [mesh_device_root_set, mesh_device_list_init]
    split
    · rfl
    · split <;> rfl
  | some l =>
    simp only [mesh_device_root_set, mesh_device_list_init]
    split
    · rfl
    · split <;> rfl

/-- If the miss-as-divergence loop reports divergence, the literal fueled
loop exhausts every fuel: a miss repeats the iteration with unchanged
state. -/
theorem del_loop_none_fuel (fuel : Nat) :
    ∀ (addrs : List mesh_device_mac_type) (l : mesh_device_list_type),
      del_loop addrs l = none → del_loop_fuel fuel addrs l = none := by
  induction fuel with
  | zero =>
    intro addrs l h
    cases addrs with
    | nil => simp [del_loop] at h
    | cons a rest => rfl
  | succ n ih =>
    intro addrs l h
    cases addrs with
    | nil => simp [del_loop] at h
    | cons a rest =>
      by_cases hs : mesh_device_list_search (some a) (some l) = true
      · rw [del_loop, if_pos hs] at h
        rw [del_loop_fuel, if_pos hs]
        exact ih rest (delMemberFirst a l) h
      · rw [del_loop_fuel, if_neg hs]
        exact ih (a :: rest) l h

/-! ## Claim theorems (first group) -/

/-- C9: before the registry has been initialized (node_list = NULL), every
public operation is total: mesh_device_root_set initializes the storage on
demand and succeeds, adopting the given address as root with an empty
membership, while search, get, add, update_timestamp and del return a
failure indication (or return with no effect) and leave no registry state
behind. -/
theorem claim_C9_uninit_total (a : mesh_device_mac_type)
    (addrs : List mesh_device_mac_type) (now : Nat) :
    mesh_device_root_set (some a) none = (true, some ⟨1, ⟨a, 0⟩, []⟩) ∧
    mesh_device_list_search (some a) none = false ∧
    mesh_device_list_get none = (false, none) ∧
    mesh_device_root_get none = (false, none) ∧
    mesh_device_add (some addrs) none = (false, none) ∧
    mesh_device_update_timestamp (some addrs) now none = (false, none) ∧
    mesh_device_del (some (a :: addrs)) none = some (false, none) := by
  refine ⟨rfl, rfl, rfl, rfl, rfl, rfl, ?_⟩
  simp [mesh_device_del]

/-- C4: with a root already set, mesh_device_root_set on the same address is
an idempotent no-op returning true, and on any different address it resets
the whole registry and adopts the new address as root with an empty member
list, returning true. -/
theorem claim_C4_root_set (l : mesh_device_list_type) (S : mesh_device_mac_type)
    (hroot : 1 ≤ l.entries_count) (hne : S ≠ l.root.mac_addr) :
    mesh_device_root_set (some l.root.mac_addr) (some l) = (true, some l) ∧
    mesh_device_root_set (some S) (some l) = (true, some ⟨1, ⟨S, 0⟩, []⟩) := by
  have hec : l.entries_count ≠ 0 := by omega
  have hne' : l.root.mac_addr ≠ S := fun h => hne h.symm
  constructor
  · simp [mesh_device_root_set, mesh_device_list_init, hec]
  · simp [mesh_device_root_set, mesh_device_list_init, hec, hne']

/-- Closed instance of claim_C4_root_set at a concrete registry. -/
theorem claim_C4_root_set_witness :
    mesh_device_root_set (some macR) (some ⟨2, ⟨macR, 10⟩, [⟨macA, 20⟩]⟩) =
      (true, some ⟨2, ⟨macR, 10⟩, [⟨macA, 20⟩]⟩) ∧
    mesh_device_root_set (some macB) (some ⟨2, ⟨macR, 10⟩, [⟨macA, 20⟩]⟩) =
      (true, some ⟨1, ⟨macB, 0⟩, []⟩) :=
  claim_C4_root_set ⟨2, ⟨macR, 10⟩, [⟨macA, 20⟩]⟩ macB (by decide) (by decide)

/-- C1 (failing input): deleting the current root's address does NOT clear
the registry.  The root comparison in mesh_device_del passes
sizeof(struct mesh_device_mac_type) == 0, i.e. the length 0, to os_memcmp,
so the reset branch is dead; the member scan does not match the root either,
and the call returns true leaving root and members untouched. -/
theorem claim_C1_root_remove_noop :
    mesh_device_del (some [macR]) (some ⟨2, ⟨macR, 10⟩, [⟨macA, 20⟩]⟩) =
      some (true, some ⟨2, ⟨macR, 10⟩, [⟨macA, 20⟩]⟩) ∧
    mesh_device_root_get (some ⟨2, ⟨macR, 10⟩, [⟨macA, 20⟩]⟩) =
      (true, some ⟨macR, 10⟩) ∧
    mesh_device_list_get (some ⟨2, ⟨macR, 10⟩, [⟨macA, 20⟩]⟩) =
      (true, some ([⟨macA, 20⟩], 1)) := by
  refine ⟨?_, by decide, by decide⟩
  decide

/-- C3 (failing input): mesh_device_del does not terminate when an input
address is absent from the registry: the loop index is incremented only
inside the search-success branch, so a miss repeats the same iteration
forever.  The fueled rendering of the loop exhausts every fuel. -/
theorem claim_C3_del_diverges :
    mesh_device_del (some [macX]) (some ⟨1, ⟨macR, 0⟩, []⟩) = none ∧
    ∀ fuel, del_loop_fuel fuel [macX] ⟨1, ⟨macR, 0⟩, []⟩ = none := by
  constructor
  · decide
  · intro fuel
    exact del_loop_none_fuel fuel [macX] ⟨1, ⟨macR, 0⟩, []⟩ (by decide)

/-- C8: a message whose resolved protocol identifier is absent from the
handler table, or whose first matching table entry carries a NULL handler,
is dropped: no handler runs (the table's handlers are universally
quantified, so none of them can influence the result) and the registry is
returned unchanged; the dispatcher itself returns normally. -/
theorem claim_C8_dispatch_drop
    (table : List (Nat × Option (Option mesh_device_list_type →
      Option (Option mesh_device_list_type))))
    (hdrOk dataOk : Bool) (len : Nat) (proto : Nat)
    (nl : Option mesh_device_list_type)
    (h : dispatch_lookup table proto = none ∨
      dispatch_lookup table proto = some none) :
    mesh_packet_dispatch table hdrOk dataOk len (some proto) nl = some nl := by
  unfold mesh_packet_dispatch
  split
  · rfl
  · rcases h with h | h <;> simp [h]

/-- Closed instance of claim_C8_dispatch_drop: the source's one-entry table
(M_PROTO_NONE bound to the topology-response handler) drops a message whose
protocol tag resolves to 1. -/
theorem claim_C8_dispatch_drop_witness :
    mesh_packet_dispatch (supported_protocols ⟨macR, []⟩ 5 4) true true 4
      (some 1) (some zeroList) = some (some zeroList) :=
  claim_C8_dispatch_drop (supported_protocols ⟨macR, []⟩ 5 4) true true 4 1
    (some zeroList) (Or.inl rfl)

/-- C7: the source response handler is extensionally equal to the
spec-described abort-on-failed-set_root handler.  On a failed set_root the
source only skips the touch and falls through to the option loop, but
mesh_device_root_set returns false solely for a NULL argument and the
handler always passes the address embedded in the (non-NULL) header, so the
branch in which the two control flows differ is unreachable and no registry
mutation beyond the spec-described one can occur. -/
theorem claim_C7_abort_equiv (hdrOk dataOk : Bool) (len : Nat)
    (msg : TopoRespMsg) (now : Nat) (nl : Option mesh_device_list_type) :
    mesh_parser_protocol_none hdrOk dataOk len msg now nl =
      mesh_parser_protocol_none_specAbort hdrOk dataOk len msg now nl := by
  unfold mesh_parser_protocol_none mesh_parser_protocol_none_specAbort
  simp [mesh_device_root_set_fst]

/-! ## Search characterization and the registry invariant -/

/-- mesh_device_list_search succeeds exactly on the root MAC or a MAC of the
scanned member prefix, provided any entry exists at all. -/
theorem search_iff (a : mesh_device_mac_type) (l : mesh_device_list_type) :
    mesh_device_list_search (some a) (some l) = true ↔
      l.entries_count ≠ 0 ∧
        (l.root.mac_addr = a ∨
          ∃ e ∈ l.list.take (l.entries_count - 1), e.mac_addr = a) := by
  simp only [mesh_device_list_search]
  split_ifs with h1 h2
  · simp [h1]
  · simp [h1, h2]
  · simp [h1, h2, List.any_eq_true]

/-- A registry holding only a root entry satisfies the invariant. -/
theorem reginv_root_only (e : mesh_device_node_type) :
    RegInv (some ⟨1, e, []⟩) := by
  simp [RegInv]

/-- mesh_device_root_set preserves the registry invariant. -/
theorem reginv_root_set (a : mesh_device_mac_type)
    (nl : Option mesh_device_list_type) (h : RegInv nl) :
    RegInv (mesh_device_root_set (some a) nl).2 := by
  cases nl with
  | none => exact reginv_root_only ⟨a, 0⟩
  | some l =>
    simp only [mesh_device_root_set, mesh_device_list_init]
    split_ifs
    · exact reginv_root_only ⟨a, 0⟩
    · exact h
    · exact reginv_root_only ⟨a, 0⟩

/-- add_one preserves the invariant together with the presence of a root. -/
theorem reginv_add_one (l : mesh_device_list_type) (a : mesh_device_mac_type)
    (h : RegInv (some l)) (hec : 1 ≤ l.entries_count) :
    RegInv (some (add_one l a)) ∧ 1 ≤ (add_one l a).entries_count := by
  unfold add_one
  split_ifs with hs
  · exact ⟨h, hec⟩
  · obtain ⟨hlen, hnd, hroot⟩ : _ ∧ _ ∧ _ := h
    have htake : l.list.take (l.entries_count - 1) = l.list := by
      rw [show l.entries_count - 1 = l.list.length from hlen.symm, List.take_length]
    have hs' := (not_iff_not.mpr (search_iff a l)).mp hs
    rw [htake] at hs'
    push_neg at hs'
    have hecne : l.entries_count ≠ 0 := by omega
    obtain ⟨hra, hmem⟩ := hs' hecne
    rw [htake]
    refine ⟨⟨?_, ?_, ?_⟩, by simp⟩
    · simp only [List.length_append, List.length_singleton, hlen]
      omega
    · rw [List.map_append]
      simp only [List.map_cons, List.map_nil]
      rw [List.nodup_append]
      refine ⟨hnd, List.nodup_singleton a, ?_⟩
      intro x hx hx'
      simp only [List.mem_singleton] at hx'
      subst hx'
      obtain ⟨e, he, he'⟩ := List.mem_map.mp hx
      exact hmem e he he'
    · intro _
      rw [List.map_append]
      simp only [List.map_cons, List.map_nil, List.mem_append, List.mem_singleton]
      rintro (hx | hx)
      · exact hroot hec hx
      · exact hra hx

/-- The append loop of mesh_device_add preserves the invariant. -/
theorem reginv_add_fold (addrs : List mesh_device_mac_type) :
    ∀ (l : mesh_device_list_type), RegInv (some l) → 1 ≤ l.entries_count →
      RegInv (some (addrs.foldl add_one l)) ∧
        1 ≤ (addrs.foldl add_one l).entries_count := by
  induction addrs with
  | nil => intro l h hec; exact ⟨h, hec⟩
  | cons a rest ih =>
    intro l h hec
    obtain ⟨h1, h2⟩ := reginv_add_one l a h hec
    simpa using ih (add_one l a) h1 h2

/-- Every registry call of a mesh_device_add / mesh_device_root_set sequence
preserves the invariant. -/
theorem reginv_applyOp (nl : Option mesh_device_list_type) (op : RegOp)
    (h : RegInv nl) : RegInv (applyOp nl op) := by
  cases op with
  | add addrs =>
    cases nl with
    | none => exact h
    | some l =>
      simp only [applyOp, mesh_device_add]
      split_ifs with h1 h2
      · exact h
      · exact h
      · exact (reginv_add_fold addrs l h (by omega)).1
  | set_root a => exact reginv_root_set a nl h

/-- The invariant holds after any sequence of add / set_root calls. -/
theorem reginv_applyOps (ops : List RegOp) :
    ∀ (nl : Option mesh_device_list_type), RegInv nl → RegInv (applyOps ops nl) := by
  induction ops with
  | nil => intro nl h; exact h
  | cons op rest ih =>
    intro nl h
    simpa [applyOps] using ih (applyOp nl op) (reginv_applyOp nl op h)

/-- C2: after every finite sequence of add and set_root calls starting from
the freshly initialized (empty) registry, no address appears both as the
root and as a member and no address appears twice among the members: the
root MAC (when set) followed by the member MACs has no duplicate. -/
theorem claim_C2_uniqueness (ops : List RegOp) :
    ((rootMac (applyOps ops (mesh_device_list_init none))).toList ++
      memberMacs (applyOps ops (mesh_device_list_init none))).Nodup := by
  have hinv : RegInv (applyOps ops (mesh_device_list_init none)) := by
    refine reginv_applyOps ops (some zeroList) ?_
    simp [RegInv, zeroList]
  cases hst : applyOps ops (mesh_device_list_init none) with
  | none => simp [rootMac, memberMacs]
  | some l =>
    rw [hst] at hinv
    obtain ⟨hlen, hnd, hroot⟩ : _ ∧ _ ∧ _ := hinv
    have htake : l.list.take (l.entries_count - 1) = l.list := by
      rw [show l.entries_count - 1 = l.list.length from hlen.symm, List.take_length]
    by_cases hec : l.entries_count = 0
    · have : l.list = [] := by
        have := hlen
        rw [hec] at this
        simpa using List.length_eq_zero.mp this
      simp [rootMac, memberMacs, memberPrefix, hec, this]
    · simp only [rootMac, memberMacs, memberPrefix, hec, if_neg hec, Option.toList_some,
        htake, List.singleton_append]
      exact List.nodup_cons.mpr ⟨fun hx => hroot (by omega) hx, hnd⟩

/-! ## Frame lemmas for the timestamp update -/

/-- updateFirstMatch changes only a timestamp field: the MACs are
untouched. -/
theorem updateFirstMatch_map_mac (a : mesh_device_mac_type) (now : Nat) :
    ∀ (xs : List mesh_device_node_type),
      (updateFirstMatch a now xs).map (fun e => e.mac_addr) =
        xs.map fun e => e.mac_addr
  | [] => rfl
  | x :: rest => by
    rw [updateFirstMatch]
    split
    · simp
    · simp [updateFirstMatch_map_mac a now rest]

/-- updateFirstMatch preserves the length. -/
theorem updateFirstMatch_length (a : mesh_device_mac_type) (now : Nat)
    (xs : List mesh_device_node_type) :
    (updateFirstMatch a now xs).length = xs.length := by
  have := congrArg List.length (updateFirstMatch_map_mac a now xs)
  simpa using this

/-- updateFirstMatch leaves every entry with a different MAC in place. -/
theorem updateFirstMatch_getElem_of_ne (a : mesh_device_mac_type) (now : Nat) :
    ∀ (xs : List mesh_device_node_type) (i : Nat) (e : mesh_device_node_type),
      xs[i]? = some e → e.mac_addr ≠ a → (updateFirstMatch a now xs)[i]? = some e
  | [], i, e, h, _ => by simp at h
  | x :: rest, 0, e, h, hne => by
    simp only [List.getElem?_cons_zero, Option.some_inj] at h
    subst h
    rw [updateFirstMatch, if_neg hne]
    simp
  | x :: rest, i + 1, e, h, hne => by
    simp only [List.getElem?_cons_succ] at h
    rw [updateFirstMatch]
    split
    · simpa using h
    · simpa using updateFirstMatch_getElem_of_ne a now rest i e h hne

/-- Frame property of one iteration of the update loop: the entry count, the
root MAC and the member MAC sequence survive; the root entry survives whole
unless its MAC is the touched one, and so does every member entry whose MAC
differs. -/
theorem touch_one_frame (now : Nat) (l : mesh_device_list_type)
    (a : mesh_device_mac_type) :
    (touch_one now l a).entries_count = l.entries_count ∧
    (touch_one now l a).root.mac_addr = l.root.mac_addr ∧
    (memberPrefix (touch_one now l a)).map (fun e => e.mac_addr) =
      (memberPrefix l).map (fun e => e.mac_addr) ∧
    (l.root.mac_addr ≠ a → (touch_one now l a).root = l.root) ∧
    (∀ (i : Nat) (e : mesh_device_node_type),
      (memberPrefix l)[i]? = some e → e.mac_addr ≠ a →
        (memberPrefix (touch_one now l a))[i]? = some e) := by
  by_cases hs : mesh_device_list_search (some a) (some l) = true
  · have ht : touch_one now l a =
        { l with
          root := if l.root.mac_addr = a then { l.root with timestamp := now }
                  else l.root
          list := updateFirstMatch a now (l.list.take (l.entries_count - 1)) } := by
      rw [touch_one, if_pos hs]
    have hpre : memberPrefix (touch_one now l a) =
        updateFirstMatch a now (memberPrefix l) := by
      rw [ht]
      show (updateFirstMatch a now (l.list.take (l.entries_count - 1))).take
          (l.entries_count - 1) = _
      rw [List.take_of_length_le]
      · rfl
      · rw [updateFirstMatch_length]
        exact List.length_take_le _ _
    refine ⟨by rw [ht], ?_, ?_, ?_, ?_⟩
    · rw [ht]
      show (if l.root.mac_addr = a then { l.root with timestamp := now }
            else l.root).mac_addr = l.root.mac_addr
      split_ifs <;> rfl
    · rw [hpre, updateFirstMatch_map_mac]
    · intro hne
      rw [ht]
      show (if l.root.mac_addr = a then { l.root with timestamp := now }
            else l.root) = l.root
      rw [if_neg hne]
    · intro i e he hne
      rw [hpre]
      exact updateFirstMatch_getElem_of_ne a now (memberPrefix l) i e he hne
  · have ht : touch_one now l a = l := by rw [touch_one, if_neg hs]
    rw [ht]
    exact ⟨rfl, rfl, rfl, fun _ => rfl, fun _ _ he _ => he⟩

/-- Frame property of the whole update loop, by composing touch_one_frame
over the input list. -/
theorem touch_fold_frame (now : Nat) :
    ∀ (addrs : List mesh_device_mac_type) (l : mesh_device_list_type),
      ((addrs.foldl (touch_one now) l).entries_count = l.entries_count) ∧
      ((addrs.foldl (touch_one now) l).root.mac_addr = l.root.mac_addr) ∧
      ((memberPrefix (addrs.foldl (touch_one now) l)).map (fun e => e.mac_addr) =
        (memberPrefix l).map fun e => e.mac_addr) ∧
      (l.root.mac_addr ∉ addrs → (addrs.foldl (touch_one now) l).root = l.root) ∧
      (∀ (i : Nat) (e : mesh_device_node_type),
        (memberPrefix l)[i]? = some e → e.mac_addr ∉ addrs →
          (memberPrefix (addrs.foldl (touch_one now) l))[i]? = some e) := by
  intro addrs
  induction addrs with
  | nil => exact fun l => ⟨rfl, rfl, rfl, fun _ => rfl, fun _ _ he _ => he⟩
  | cons a rest ih =>
    intro l
    obtain ⟨s1, s2, s3, s4, s5⟩ := touch_one_frame now l a
    obtain ⟨i1, i2, i3, i4, i5⟩ := ih (touch_one now l a)
    simp only [List.foldl_cons]
    refine ⟨i1.trans s1, i2.trans s2, i3.trans s3, ?_, ?_⟩
    · intro hmem
      simp only [List.mem_cons, not_or] at hmem
      have hr := s4 hmem.1
      have hnotin : (touch_one now l a).root.mac_addr ∉ rest := by
        rw [hr]
        exact hmem.2
      rw [i4 hnotin, hr]
    · intro i e he hmem
      simp only [List.mem_cons, not_or] at hmem
      exact i5 i e (s5 i e he hmem.1) hmem.2

/-- C10: mesh_device_update_timestamp changes only timestamp fields of
entries whose address appears in the input: the entry count, the root MAC
and the member MAC sequence (set and order) are unchanged, the root entry is
unchanged whole when its MAC is not in the input, and every member entry
whose MAC is not in the input keeps its position and its timestamp. -/
theorem claim_C10_touch_frame (addrs : List mesh_device_mac_type) (now : Nat)
    (l : mesh_device_list_type) :
    ∃ l', (mesh_device_update_timestamp (some addrs) now (some l)).2 = some l' ∧
      l'.entries_count = l.entries_count ∧
      l'.root.mac_addr = l.root.mac_addr ∧
      ((memberPrefix l').map (fun e => e.mac_addr) =
        (memberPrefix l).map fun e => e.mac_addr) ∧
      (l.root.mac_addr ∉ addrs → l'.root = l.root) ∧
      (∀ (i : Nat) (e : mesh_device_node_type),
        (memberPrefix l)[i]? = some e → e.mac_addr ∉ addrs →
          (memberPrefix l')[i]? = some e) := by
  simp only [mesh_device_update_timestamp]
  split_ifs with hec
  · exact ⟨l, rfl, rfl, rfl, rfl, fun _ => rfl, fun _ _ he _ => he⟩
  · exact ⟨addrs.foldl (touch_one now) l, rfl, touch_fold_frame now addrs l⟩

/-- Closed instance of claim_C10_touch_frame: touching an absent address
leaves a concrete registry's root entry and member entry untouched. -/
theorem claim_C10_touch_frame_witness :
    ∃ l', (mesh_device_update_timestamp (some [macB]) 9
        (some ⟨2, ⟨macR, 5⟩, [⟨macA, 3⟩]⟩)).2 = some l' ∧
      l'.root = ⟨macR, 5⟩ ∧ (memberPrefix l')[0]? = some ⟨macA, 3⟩ := by
  obtain ⟨l', h1, _, _, _, h5, h6⟩ :=
    claim_C10_touch_frame [macB] 9 ⟨2, ⟨macR, 5⟩, [⟨macA, 3⟩]⟩
  exact ⟨l', h1, h5 (by decide), h6 0 ⟨macA, 3⟩ (by decide) (by decide)⟩

/-! ## Characterization of mesh_device_add -/

/-- The append loop of mesh_device_add appends exactly the fresh input
addresses (input order, duplicates within the input collapsed to one,
already-present addresses skipped) as entries with timestamp 0, leaving the
existing entries untouched. -/
theorem add_fold_spec :
    ∀ (addrs : List mesh_device_mac_type) (l : mesh_device_list_type),
      RegInv (some l) → 1 ≤ l.entries_count →
      addrs.foldl add_one l =
        ⟨l.entries_count + (freshList l addrs).length, l.root,
          l.list ++ (freshList l addrs).map fun a => ⟨a, 0⟩⟩
  | [], l, _, _ => by
    simp only [List.foldl_nil, freshList]
    cases l
    simp
  | a :: rest, l, h, hec => by
    have hlen : l.list.length = l.entries_count - 1 :=
      (show _ ∧ _ ∧ _ from h).1
    have htake : l.list.take (l.entries_count - 1) = l.list := by
      rw [show l.entries_count - 1 = l.list.length from hlen.symm, List.take_length]
    simp only [List.foldl_cons, freshList]
    by_cases hs : mesh_device_list_search (some a) (some l) = true
    · rw [if_pos hs]
      have ha1 : add_one l a = l := by rw [add_one, if_pos hs]
      rw [ha1]
      exact add_fold_spec rest l h hec
    · rw [if_neg hs]
      have ha1 : add_one l a =
          ⟨l.entries_count + 1, l.root, l.list ++ [⟨a, 0⟩]⟩ := by
        rw [add_one, if_neg hs, htake]
      obtain ⟨h', hec'⟩ := reginv_add_one l a h hec
      rw [ha1] at h' hec' ⊢
      rw [add_fold_spec rest _ h' hec']
      simp only [mesh_device_list_type.mk.injEq, List.map_cons, List.length_cons]
      refine ⟨by omega, trivial, by simp⟩

/-- C6 (amended): with a root set, mesh_device_add appends exactly one new
entry per input address not already present as root or member (duplicates
within the input collapsed to one), in input order, each carrying timestamp
0 (the zalloc fill; the fresh timestamp comes from the separate
mesh_device_update_timestamp step); already-present addresses are skipped
with their entries untouched, and the return value is the Boolean true (not
a count), also when nothing was added. -/
theorem claim_C6_add_spec (l : mesh_device_list_type)
    (addrs : List mesh_device_mac_type) (h : RegInv (some l))
    (hec : 1 ≤ l.entries_count) :
    mesh_device_add (some addrs) (some l) =
      (true, some ⟨l.entries_count + (freshList l addrs).length, l.root,
        l.list ++ (freshList l addrs).map fun a => ⟨a, 0⟩⟩) := by
  simp only [mesh_device_add]
  rw [if_neg (by omega)]
  split_ifs with hnil
  · subst hnil
    simp only [freshList]
    cases l
    simp
  · rw [add_fold_spec addrs l h hec]

/-- Closed instance of claim_C6_add_spec: adding [A, A, root] to a root-only
registry appends exactly one entry for A, with timestamp 0, returning
true. -/
theorem claim_C6_add_spec_witness :
    mesh_device_add (some [macA, macA, macR]) (some ⟨1, ⟨macR, 4⟩, []⟩) =
      (true, some ⟨2, ⟨macR, 4⟩, [⟨macA, 0⟩]⟩) :=
  (claim_C6_add_spec ⟨1, ⟨macR, 4⟩, []⟩ [macA, macA, macR]
    (reginv_root_only ⟨macR, 4⟩) (by decide)).trans (by decide)

/-- C6 (counterexample): at a call occurring at time 7, adding the fresh
address A appends the entry (A, 0), not the claim-predicted entry (A, 7)
with the current timestamp — mesh_device_add never reads the clock — and a
repeated add of the already-present A returns the Boolean true (the function
has no count to return) while changing nothing. -/
theorem claim_C6_counterexample :
    mesh_device_add (some [macA]) (some ⟨1, ⟨macR, 0⟩, []⟩) =
      (true, some ⟨2, ⟨macR, 0⟩, [⟨macA, 0⟩]⟩) ∧
    (⟨2, ⟨macR, 0⟩, [⟨macA, 0⟩]⟩ : mesh_device_list_type) ≠
      ⟨2, ⟨macR, 0⟩, [⟨macA, 7⟩]⟩ ∧
    mesh_device_add (some [macA]) (some ⟨2, ⟨macR, 0⟩, [⟨macA, 0⟩]⟩) =
      (true, some ⟨2, ⟨macR, 0⟩, [⟨macA, 0⟩]⟩) :=
  ⟨by decide, by decide, by decide⟩

/-! ## Eviction correctness -/

/-- Reading the snapshot at the index right after a prefix yields the entry
there. -/
theorem getD_append_len (xs : List mesh_device_node_type)
    (y : mesh_device_node_type) (ys : List mesh_device_node_type)
    (d : mesh_device_node_type) :
    (xs ++ y :: ys).getD xs.length d = y := by
  induction xs with
  | nil => rfl
  | cons x xs ih =>
    simpa only [List.cons_append, List.length_cons, List.getD_cons_succ] using ih

/-- Rebuild a registry value from its root and equations for the other two
fields. -/
theorem list_type_eta (l : mesh_device_list_type) (ec : Nat)
    (lst : List mesh_device_node_type) (h1 : l.entries_count = ec)
    (h2 : l.list = lst) : l = ⟨ec, l.root, lst⟩ := by
  cases l
  simp_all

/-- removeFirst deletes exactly the first occurrence when the preceding
entries all carry different MACs. -/
theorem removeFirst_append (a : mesh_device_mac_type)
    (xs : List mesh_device_node_type) (e : mesh_device_node_type)
    (ys : List mesh_device_node_type)
    (hx : ∀ x ∈ xs, x.mac_addr ≠ a) (he : e.mac_addr = a) :
    removeFirst a (xs ++ e :: ys) = xs ++ ys := by
  induction xs with
  | nil => simp [removeFirst, he]
  | cons x xs ih =>
    rw [List.cons_append, removeFirst, if_neg (hx x (List.mem_cons_self x xs)),
      ih fun x' hx' => hx x' (List.mem_cons_of_mem x hx')]
    rfl

/-- mesh_device_del on a single present member address: the member is
removed in place (order of the remaining members preserved), entries_count
drops by one, the call terminates and returns true. -/
theorem del_single_member (l : mesh_device_list_type)
    (fs bs : List mesh_device_node_type) (e : mesh_device_node_type)
    (hlist : l.list = fs ++ e :: bs)
    (hec : l.entries_count = 1 + l.list.length)
    (hx : ∀ x ∈ fs, x.mac_addr ≠ e.mac_addr)
    (_hr : l.root.mac_addr ≠ e.mac_addr) :
    mesh_device_del (some [e.mac_addr]) (some l) =
      some (true, some ⟨l.entries_count - 1, l.root, fs ++ bs⟩) := by
  have htake : l.list.take (l.entries_count - 1) = l.list := by
    rw [hec, Nat.add_sub_cancel_left]
    exact List.take_length l.list
  have hecne : l.entries_count ≠ 0 := by omega
  have hmem : e ∈ l.list.take (l.entries_count - 1) := by
    rw [htake, hlist]
    exact List.mem_append_right fs (List.mem_cons_self e bs)
  have hsearch : mesh_device_list_search (some e.mac_addr) (some l) = true :=
    (search_iff e.mac_addr l).mpr ⟨hecne, Or.inr ⟨e, hmem, rfl⟩⟩
  have hany : (l.list.take (l.entries_count - 1)).any
      (fun x => decide (x.mac_addr = e.mac_addr)) = true :=
    List.any_eq_true.mpr ⟨e, hmem, by simp⟩
  have hdel : delMemberFirst e.mac_addr l =
      ⟨l.entries_count - 1, l.root, fs ++ bs⟩ := by
    rw [delMemberFirst, if_pos hany, htake, hlist,
      removeFirst_append e.mac_addr fs e bs hx rfl]
  simp only [mesh_device_del]
  rw [if_neg (by simp)]
  rw [if_neg hecne]
  rw [del_loop, if_pos hsearch, hdel]
  rfl

/-- The downward eviction walk: with the live member list equal to the
already-walked snapshot prefix followed by the filtered remainder, the walk
ends with exactly the non-stale snapshot entries as members, in order, with
their timestamps, and with the root entry untouched. -/
theorem evict_loop_go (threshold now : Nat) :
    ∀ (front : List mesh_device_node_type),
      ∀ (back : List mesh_device_node_type) (l : mesh_device_list_type),
      ((front ++ back).map fun e => e.mac_addr).Nodup →
      l.root.mac_addr ∉ (front ++ back).map (fun e => e.mac_addr) →
      l.list = front ++ back.filter (fun e => !staleB threshold now e.timestamp) →
      l.entries_count = 1 + l.list.length →
      evict_loop threshold now (front ++ back) front.length l =
        some ⟨1 + ((front ++ back).filter fun e =>
            !staleB threshold now e.timestamp).length,
          l.root,
          (front ++ back).filter fun e => !staleB threshold now e.timestamp⟩ := by
  intro front
  induction front using List.reverseRecOn with
  | nil =>
    intro back l _ _ hlist hec
    simp only [List.nil_append, List.length_nil] at hlist ⊢
    rw [evict_loop]
    exact congrArg some
      (list_type_eta l _ _ (by rw [hec, hlist]) hlist)
  | append_singleton fs e ih =>
    intro back l hnd hroot hlist hec
    have hass : (fs ++ [e]) ++ back = fs ++ e :: back := by simp
    have hlist' : l.list =
        fs ++ e :: back.filter (fun x => !staleB threshold now x.timestamp) := by
      rw [hlist]
      simp
    rw [hass] at hnd hroot ⊢
    rw [show (fs ++ [e]).length = fs.length + 1 from by simp]
    rw [evict_loop]
    rw [show (fs ++ e :: back).getD fs.length zeroNode = e from
      getD_append_len fs e back zeroNode]
    have hemem : e.mac_addr ∈ (fs ++ e :: back).map fun x => x.mac_addr :=
      List.mem_map.mpr ⟨e, List.mem_append_right fs (List.mem_cons_self e back), rfl⟩
    by_cases hst : staleB threshold now e.timestamp = true
    · rw [if_pos hst]
      have hnotfs : e.mac_addr ∉ fs.map fun x => x.mac_addr := by
        intro hin
        rw [List.map_append] at hnd
        obtain ⟨-, -, hdisj⟩ := List.nodup_append.mp hnd
        exact hdisj hin (by simp)
      have hx : ∀ x ∈ fs, x.mac_addr ≠ e.mac_addr := by
        intro x hxin hxeq
        exact hnotfs (hxeq ▸ List.mem_map_of_mem (fun y => y.mac_addr) hxin)
      have hr : l.root.mac_addr ≠ e.mac_addr := by
        intro heq
        exact hroot (heq ▸ hemem)
      rw [del_single_member l fs
        (back.filter fun x => !staleB threshold now x.timestamp) e hlist' hec hx hr]
      have hlen1 : l.list.length = fs.length +
          (1 + (back.filter fun x => !staleB threshold now x.timestamp).length) := by
        rw [hlist']
        simp [Nat.add_comm, Nat.add_assoc, Nat.add_left_comm]
      have hres := ih (e :: back)
        ⟨l.entries_count - 1, l.root,
          fs ++ back.filter fun x => !staleB threshold now x.timestamp⟩
        hnd hroot
        (by simp [List.filter_cons, hst])
        (by simp only [List.length_append]
            rw [hec, hlen1]
            omega)
      exact hres
    · rw [if_neg hst]
      have hres := ih (e :: back) l hnd hroot
        (by rw [hlist']
            congr 1
            rw [List.filter_cons, if_pos (by simp [hst])])
        hec
      exact hres

/-- C5 (amended): the eviction pass removes exactly the members whose age
(now - last_seen) taken in 32-bit arithmetic and divided by 1000 (the
timestamps are microseconds, the threshold milliseconds) exceeds the
threshold; every surviving member keeps its timestamp and the original
relative order, and the root entry is never touched regardless of its
timestamp. -/
theorem claim_C5_evict_exact (threshold now : Nat) (l : mesh_device_list_type)
    (h : RegInv (some l)) :
    evict_stale threshold now (some l) =
      some (some ⟨l.entries_count -
          (l.list.length -
            (l.list.filter fun e => !staleB threshold now e.timestamp).length),
        l.root, l.list.filter fun e => !staleB threshold now e.timestamp⟩) := by
  obtain ⟨hlen, hnd, hroot⟩ : _ ∧ _ ∧ _ := h
  by_cases hempty : l.entries_count ≤ 1 ∨ l.list = []
  · have hnil : l.list = [] := by
      rcases hempty with hec | hl
      · have : l.list.length = 0 := by omega
        exact List.length_eq_zero.mp this
      · exact hl
    have hget : (mesh_device_list_get (some l)).2 = some ([], 0) := by
      simp only [mesh_device_list_get]
      rw [if_pos hempty]
    show (match (mesh_device_list_get (some l)).2 with
      | none => some (some l)
      | some (snap, cnt) => if snap = [] then some (some l)
          else (evict_loop threshold now snap cnt l).map some) = _
    rw [hget]
    show (if ([] : List mesh_device_node_type) = [] then some (some l)
        else (evict_loop threshold now [] 0 l).map some) = _
    rw [if_pos rfl]
    refine congrArg some (congrArg some ?_)
    exact list_type_eta l _ _ (by rw [hnil]; simp) (by rw [hnil]; simp)
  · have hnotor := hempty
    push_neg at hempty
    obtain ⟨hec2, hne⟩ := hempty
    have htake : l.list.take (l.entries_count - 1) = l.list := by
      rw [show l.entries_count - 1 = l.list.length from hlen.symm]
      exact List.take_length l.list
    have hget : (mesh_device_list_get (some l)).2 =
        some (l.list, l.entries_count - 1) := by
      simp only [mesh_device_list_get]
      rw [if_neg hnotor, htake]
    show (match (mesh_device_list_get (some l)).2 with
      | none => some (some l)
      | some (snap, cnt) => if snap = [] then some (some l)
          else (evict_loop threshold now snap cnt l).map some) = _
    rw [hget]
    show (if l.list = [] then some (some l)
        else (evict_loop threshold now l.list (l.entries_count - 1) l).map some) = _
    rw [if_neg hne]
    have hec' : l.entries_count = 1 + l.list.length := by omega
    have hgo := evict_loop_go threshold now l.list [] l
      (by simpa using hnd)
      (by simpa using hroot (by omega))
      (by simp)
      hec'
    simp only [List.append_nil] at hgo
    rw [show l.entries_count - 1 = l.list.length from hlen.symm, hgo]
    have hfle := List.length_filter_le
      (fun e => !staleB threshold now e.timestamp) l.list
    simp only [Option.map_some']
    refine congrArg some (congrArg some ?_)
    congr 1
    omega

/-- C5 (counterexample): with threshold 30000 and now 31000, the single
member (last_seen 0) satisfies now - last_seen = 31000 > 30000, so the claim
says the eviction pass removes it; the pass keeps it, because the source
compares (now - last_seen) / 1000 — microseconds scaled to milliseconds —
against the threshold, not now - last_seen itself. -/
theorem claim_C5_counterexample :
    evict_stale 30000 31000 (some ⟨2, ⟨macR, 0⟩, [⟨macA, 0⟩]⟩) =
      some (some ⟨2, ⟨macR, 0⟩, [⟨macA, 0⟩]⟩) ∧
    30000 < sub32 31000 0 :=
  ⟨by decide, by decide⟩

/-- Closed instance of claim_C5_evict_exact: at now = 50000001 µs with the
30000 ms threshold, the member last seen at 0 µs is evicted, the member last
seen at 50000000 µs survives with its timestamp and position, and the root
(also last seen at 0 µs, far beyond the threshold) is untouched. -/
theorem claim_C5_evict_exact_witness :
    evict_stale 30000 50000001
      (some ⟨3, ⟨macR, 0⟩, [⟨macA, 50000000⟩, ⟨macB, 0⟩]⟩) =
      some (some ⟨2, ⟨macR, 0⟩, [⟨macA, 50000000⟩]⟩) :=
  (claim_C5_evict_exact 30000 50000001
    ⟨3, ⟨macR, 0⟩, [⟨macA, 50000000⟩, ⟨macB, 0⟩]⟩
    ⟨by decide, by decide, by decide⟩).trans (by decide)
